import Mathlib

/-
Verification of the Artrix conversational-support backend against its
natural-language specification.

The Python sources are shallowly embedded: pure functions become Lean
functions over ℚ / Nat / List, stateful endpoints become explicit state
passing over a per-session state record, and fallible external calls are
modelled with Except / Option parameters supplied by an environment.
-/

namespace Artrix

/-! ## Shared retrieval data model
    (src/backend/app/services/rag/retrieval.py, dataclasses) -/

/-- Vector-store point payload; only the fields the retrieval pipeline
reads (`chunk_id`, `chunk_text`) are modelled, each optional exactly as
`payload.get` treats them. -/
structure Payload where
  chunkId : Option String
  chunkText : Option String
deriving DecidableEq, Repr

/-- `RankedResult` dataclass: final ranked result after reranking. -/
structure RankedResult where
  chunkId : String
  text : String
  payload : Payload
  relevanceScore : ℚ
  rank : Nat
deriving DecidableEq, Repr

/-- `RetrievalOutput` dataclass (latency field omitted: wall-clock time
is outside the embedding). -/
structure RetrievalOutput where
  results : List RankedResult
  confidence : ℚ
  shouldEscalate : Bool
  escalationReason : Option String
deriving DecidableEq, Repr

/-! ## Confidence scoring (`compute_confidence`, retrieval.py lines 117-127) -/

/-- `compute_confidence`: 0 on empty input, otherwise
`min(1.0, top * 0.85 + (supporting / 10) * 0.15)` with
`supporting = #results with relevance_score > 0.4`. -/
def computeConfidence : List RankedResult → ℚ
  | [] => 0
  | top :: rest =>
    let supporting : Nat :=
      (top :: rest).countP (fun r => decide ((0.4 : ℚ) < r.relevanceScore))
    min 1 (top.relevanceScore * 0.85 + ((supporting : ℚ) / 10) * 0.15)

/-- `should_escalate` (retrieval.py lines 134-148): low confidence takes
precedence over the turn cap. -/
def shouldEscalateFn (confidence : ℚ) (turnCount maxTurns : Nat)
    (escalateThreshold : ℚ) : Bool × Option String :=
  if confidence < escalateThreshold then (true, some "low_retrieval_confidence")
  else if maxTurns ≤ turnCount then (true, some "max_turns_exceeded")
  else (false, none)

/-! ## Session / billing state model

One session's view of the system: Postgres session row fields, the three
Redis billing counters, the Redis memory entry, the persisted messages and
the durable billing events. -/

inductive SessionStatus
  | active
  | resolved
  | escalated
deriving DecidableEq, Repr

inductive Role
  | user
  | assistant
deriving DecidableEq, Repr

structure ChatMsg where
  role : Role
  content : String
deriving DecidableEq, Repr

/-- `BillingEvent` model row (models/billing.py), counters only. -/
structure BillingEvent where
  eventType : String
  totalInputTokens : Nat
  totalOutputTokens : Nat
  totalMessages : Nat
deriving DecidableEq, Repr

/-- Per-session system state: session row, Redis keys, Postgres rows. -/
structure SessState where
  status : SessionStatus
  endedAt : Bool
  escalationReason : Option String
  /-- Redis key `billing:<sid>:input_tokens` -/
  inputKey : Option Nat
  /-- Redis key `billing:<sid>:output_tokens` -/
  outputKey : Option Nat
  /-- Redis key `billing:<sid>:message_count` -/
  countKey : Option Nat
  /-- Redis key `memory:<sid>` (deserialized message list) -/
  memoryKey : Option (List ChatMsg)
  /-- Postgres `messages` rows for this session, in created-at order -/
  messages : List ChatMsg
  /-- Postgres `billing_events` rows for this session -/
  events : List BillingEvent
deriving DecidableEq, Repr

/-- `BillingService.record_message` (billing.py lines 44-72): INCRBY the
three counters (missing key starts from 0). TTL refresh is not modelled. -/
def recordMessage (inTok outTok : Nat) (st : SessState) : SessState :=
  { st with
    inputKey := some (st.inputKey.getD 0 + inTok)
    outputKey := some (st.outputKey.getD 0 + outTok)
    countKey := some (st.countKey.getD 0 + 1) }

/-- `BillingService.close_session` (billing.py lines 74-130): read the
three counters treating a missing key as 0, insert one billing event,
delete the three keys. The boolean reports whether the all-keys-missing
warning was logged. -/
def closeSessionRun (eventType : String) (st : SessState) : SessState × Bool :=
  let totalIn := st.inputKey.getD 0
  let totalOut := st.outputKey.getD 0
  let totalMsgs := st.countKey.getD 0
  let warned := st.inputKey.isNone && st.outputKey.isNone && st.countKey.isNone
  ({ st with
      events := st.events ++ [⟨eventType, totalIn, totalOut, totalMsgs⟩]
      inputKey := none
      outputKey := none
      countKey := none }, warned)

def closeSession (eventType : String) (st : SessState) : SessState :=
  (closeSessionRun eventType st).1

/-- `start_session` endpoint (api/v1/session.py lines 33-59): create an
active session, then initialize the billing counters via
`record_message(0, 0)`. -/
def startSession : SessState :=
  recordMessage 0 0
    { status := .active, endedAt := false, escalationReason := none
      inputKey := none, outputKey := none, countKey := none
      memoryKey := none, messages := [], events := [] }

/-- `end_session` endpoint (api/v1/session.py lines 62-96): set status to
resolved (the source performs no status check), flush billing with event
type `resolved`, clear memory. -/
def endSession (st : SessState) : SessState :=
  let st1 := { st with status := .resolved, endedAt := true }
  let st2 := closeSession "resolved" st1
  { st2 with memoryKey := none }

/-! ## Escalation (services/agent/escalation.py lines 64-224) -/

inductive EscStep
  | loadTranscript
  | commitSessionUpdate
  | enqueueWebhook
  | clearMemory
deriving DecidableEq, Repr

/-- `EscalationService.escalate`: load transcript, commit the session
update (status escalated, reason, ended-at), enqueue the webhook task
without awaiting it only when a URL is configured, clear memory. The
second component is the ordered trace of the steps performed. -/
def escalateRun (reason : String) (url : Option String) (st : SessState) :
    SessState × List EscStep :=
  let st1 := { st with
    status := .escalated, escalationReason := some reason, endedAt := true }
  let steps :=
    [EscStep.loadTranscript, EscStep.commitSessionUpdate] ++
    (if url.isSome then [EscStep.enqueueWebhook] else []) ++
    [EscStep.clearMemory]
  ({ st1 with memoryKey := none }, steps)

def escalate (reason : String) (url : Option String) (st : SessState) :
    SessState :=
  (escalateRun reason url st).1

/-- `_fire_webhook_with_retries` run as a detached task: up to 3 delivery
attempts; if none succeeds, insert a compensating
`escalation_webhook_failed` billing event; every exception is swallowed.
`outcomes` gives the success of each attempted delivery. -/
def webhookTask (outcomes : List Bool) (st : SessState) : SessState :=
  if (outcomes.take 3).any (fun b => b) then st
  else
    { st with events := st.events ++ [⟨"escalation_webhook_failed", 0, 0, 0⟩] }

/-! ## Chat turn (api/v1/chat.py send_message + AgentCore.handle_turn)

The LLM outcome is abstracted into the `esc` flag (whether the turn's
domain-query branch decided to escalate) and the metered token counts. -/

/-- One `POST /chat/message` round trip. `none` models the
`SessionInactiveError` raised for a non-active session. The escalating
path follows core.py `_handle_domain_query` (escalate tool) and chat.py
steps 5-6 (`record_message`, then `close_session("escalated")`). -/
def chatTurn (esc : Bool) (userMsg reply : String) (inTok outTok : Nat)
    (url : Option String) (st : SessState) : Option SessState :=
  if st.status ≠ .active then none
  else
    let newMem := st.memoryKey.getD [] ++ [⟨.user, userMsg⟩, ⟨.assistant, reply⟩]
    let st1 :=
      if esc then escalate "low_retrieval_confidence" url st
      else { st with memoryKey := some newMem }
    let st2 := { st1 with
      messages := st1.messages ++ [⟨.user, userMsg⟩, ⟨.assistant, reply⟩] }
    let st3 := recordMessage inTok outTok st2
    some (if esc then closeSession "escalated" st3 else st3)

/-- A sequence of non-escalating conversational turns with the given
per-turn (input, output) token counts. -/
def runConvTurns : List (Nat × Nat) → SessState → Option SessState
  | [], st => some st
  | (i, o) :: rest, st =>
    (chatTurn false "u" "a" i o none st).bind (runConvTurns rest)

/-- Idle-session sweeper step for one session
(billing.py `auto_close_idle_sessions`): only active sessions are swept. -/
def sweepSession (st : SessState) : SessState :=
  if st.status = .active then
    closeSession "timeout" { st with status := .resolved, endedAt := true }
  else st

/-! ## Agent domain-query branch (services/agent/core.py lines 427-542) -/

inductive AgentIntent
  | conversational
  | domainQuery
  | outOfScope
deriving DecidableEq, Repr

/-- `AgentTurnOutput`, the fields the branch logic determines. -/
structure TurnOut where
  response : String
  intentType : AgentIntent
  confidence : Option ℚ
  escalationRequired : Bool
  escalationReason : Option String
deriving DecidableEq, Repr

inductive AgentCall
  | callRetrieval
  | callEscalate
  | callLLM
deriving DecidableEq, Repr

def staticGreeting (personaName : String) : String :=
  "Hi there! I\x27m " ++ personaName ++ ". How can I help you today?"

/-- `_handle_conversational` (core.py lines 373-423): the LLM reply
(`none` on failure, possibly empty when safety-blocked) or the static
greeting; always conversational, never escalates. -/
def handleConversational (llmReply : Option String) (personaName : String) :
    TurnOut :=
  let text :=
    match llmReply with
    | some t => if t = "" then staticGreeting personaName else t
    | none => staticGreeting personaName
  ⟨text, .conversational, none, false, none⟩

def escalationResponseText : String :=
  "I don\x27t have enough information to answer that confidently. " ++
  "Let me connect you with a human agent who can help."

/-- `_handle_domain_query` (core.py lines 427-542): retrieval first; empty
results fall back to the conversational branch; otherwise escalate or
compose the grounded answer. The trace records tool/LLM invocations in
order. -/
def handleDomainQuery (ro : RetrievalOutput) (convReply : Option String)
    (ragReply : String) (personaName : String) : TurnOut × List AgentCall :=
  if ro.results.isEmpty then
    (handleConversational convReply personaName,
     [AgentCall.callRetrieval, AgentCall.callLLM])
  else if ro.shouldEscalate then
    ({ response := escalationResponseText
       intentType := .domainQuery
       confidence := some ro.confidence
       escalationRequired := true
       escalationReason := ro.escalationReason },
     [AgentCall.callRetrieval, AgentCall.callEscalate])
  else
    ({ response := ragReply
       intentType := .domainQuery
       confidence := some ro.confidence
       escalationRequired := false
       escalationReason := none },
     [AgentCall.callRetrieval, AgentCall.callLLM])

/-! ## Ingestion chunker (src/app/services/rag/ingestion.py lines 252-471)

Text is embedded as its cl100k_base token-id sequence (`List Nat`):
`_count_tokens` is the length, `_ENCODER.encode` / `decode` are the
identity, and the string joins used by the chunker append fixed separator
token sequences. `.strip()` is the identity on this representation. -/

abbrev Tok := Nat

/-- Tokens of the `"\n\n"` join used for Title merging and buffering. -/
def sepTokens : List Tok := [271]

/-- Tokens of the `"\n"` join between rendered list items. -/
def nlTokens : List Tok := [198]

/-- Tokens of the bullet prefix rendered before each list item. -/
def bulletTokens : List Tok := [6806]

def countTokens (t : List Tok) : Nat := t.length

/-- `ParsedElement` (ingestion.py lines 67-75); page number omitted. -/
structure PElem where
  text : List Tok
  elementType : String
  sectionHeading : Option String
deriving DecidableEq, Repr

/-- `_LogicalBlock` (ingestion.py lines 252-260). -/
structure LogicalBlock where
  text : List Tok
  tokenCount : Nat
  elementType : String
  sectionHeading : Option String
  isAtomic : Bool
deriving DecidableEq, Repr

/-- `Chunk` (ingestion.py lines 85-94); the freshly generated UUID is not
modelled — a chunk is identified by its position in the output list. -/
structure Chunk where
  text : List Tok
  tokenCount : Nat
  elementType : String
  sectionHeading : Option String
deriving DecidableEq, Repr

/-- Hard token limits (ingestion.py lines 44-47). -/
def maxChunkTokens : Nat := 500
def overlapTokens : Nat := 50

/-- `_split_text_with_overlap` (ingestion.py lines 344-372): sliding
windows of `max` tokens, consecutive windows sharing `overlap` tokens. -/
def splitTextWithOverlap (text : List Tok) : List (List Tok) :=
  if text.length ≤ maxChunkTokens then [text]
  else
    text.take maxChunkTokens ::
      splitTextWithOverlap (text.drop (maxChunkTokens - overlapTokens))
termination_by text.length
decreasing_by
  simp only [List.length_drop, maxChunkTokens, overlapTokens] at *
  omega

def isListItemElem (e : PElem) : Bool := e.elementType == "ListItem"

/-- Atomic block for one Table element. -/
def tableBlockOf (el : PElem) : LogicalBlock :=
  ⟨el.text, countTokens el.text, "Table", el.sectionHeading, true⟩

/-- Atomic block for a Title that has no following non-Title element. -/
def titleBlockOf (el : PElem) : LogicalBlock :=
  ⟨el.text, countTokens el.text, "Title", el.sectionHeading, true⟩

/-- Atomic block merging a Title with the immediately following
non-Title element (element type taken from the follower). -/
def mergedBlockOf (el next : PElem) : LogicalBlock :=
  ⟨el.text ++ sepTokens ++ next.text,
   countTokens (el.text ++ sepTokens ++ next.text), next.elementType,
   el.sectionHeading, true⟩

/-- Atomic block for a run of consecutive ListItems, bullet-rendered and
newline-joined. -/
def listBlockOf (el : PElem) (run : List PElem) : LogicalBlock :=
  let combined := List.intercalate nlTokens
    ((el.text :: run.map (·.text)).map (fun t => bulletTokens ++ t))
  ⟨combined, countTokens combined, "ListItem", el.sectionHeading, true⟩

/-- Non-atomic block for any other element. -/
def plainBlockOf (el : PElem) : LogicalBlock :=
  ⟨el.text, countTokens el.text, el.elementType, el.sectionHeading, false⟩

/-- `_create_logical_blocks` (ingestion.py lines 263-341): Tables atomic,
a Title merges with the single immediately following non-Title element,
consecutive ListItems merge bullet-rendered, everything else is a
non-atomic block. -/
def createLogicalBlocks : List PElem → List LogicalBlock
  | [] => []
  | el :: rest =>
    if el.elementType = "Table" then
      tableBlockOf el :: createLogicalBlocks rest
    else if el.elementType = "Title" then
      match rest with
      | [] => [titleBlockOf el]
      | next :: rest2 =>
        if next.elementType = "Title" then
          titleBlockOf el :: createLogicalBlocks (next :: rest2)
        else
          mergedBlockOf el next :: createLogicalBlocks rest2
    else if el.elementType = "ListItem" then
      listBlockOf el (rest.takeWhile isListItemElem) ::
        createLogicalBlocks (rest.dropWhile isListItemElem)
    else
      plainBlockOf el :: createLogicalBlocks rest
termination_by els => els.length
decreasing_by
  · simp only [List.length_cons]; omega
  · simp only [List.length_cons]; omega
  · simp only [List.length_cons]; omega
  · simp only [List.length_cons]
    have hdw : ∀ (l : List PElem),
        (List.dropWhile isListItemElem l).length ≤ l.length := by
      intro l
      induction l with
      | nil => simp
      | cons a l ih =>
        rw [List.dropWhile_cons]
        split
        · exact Nat.le_succ_of_le ih
        · simp
    exact Nat.lt_succ_of_le (hdw _)
  · simp only [List.length_cons]; omega

/-- The chunker's running buffer of non-atomic blocks
(`buffer_text` / `buffer_tokens` / `buffer_type` / `buffer_heading`). -/
structure BufSt where
  text : List Tok
  tokens : Nat
  btype : String
  heading : Option String
deriving DecidableEq, Repr

def initialBuf : BufSt := ⟨[], 0, "NarrativeText", none⟩

/-- `_flush_buffer` (ingestion.py lines 391-418): nothing on an empty
buffer, window-split when over the hard max, one chunk otherwise. -/
def flushChunks (st : BufSt) : List Chunk :=
  if st.text = [] then []
  else if maxChunkTokens < st.tokens then
    (splitTextWithOverlap st.text).map
      (fun sub => ⟨sub, countTokens sub, st.btype, st.heading⟩)
  else [⟨st.text, st.tokens, st.btype, st.heading⟩]

def clearBuf (st : BufSt) : BufSt := { st with text := [], tokens := 0 }

/-- Section-change flush (ingestion.py lines 421-424): flush when the
block's heading differs from the buffer's and the buffer is nonempty,
then adopt the block's heading. -/
def sectionFlush (st0 : BufSt) (b : LogicalBlock) : List Chunk × BufSt :=
  if b.sectionHeading ≠ st0.heading ∧ st0.text ≠ [] then
    (flushChunks st0, { clearBuf st0 with heading := b.sectionHeading })
  else ([], st0)

/-- `if buffer_heading is None: buffer_heading = block.section_heading`
(ingestion.py lines 426-427). -/
def headingInit (st : BufSt) (b : LogicalBlock) : BufSt :=
  if st.heading = none then { st with heading := b.sectionHeading } else st

/-- Chunks emitted for one atomic block (ingestion.py lines 433-452):
oversized non-Table atomic blocks are window-split; Tables and in-bound
blocks become exactly one chunk. -/
def atomicEmit (b : LogicalBlock) : List Chunk :=
  if maxChunkTokens < b.tokenCount ∧ b.elementType ≠ "Table" then
    (splitTextWithOverlap b.text).map
      (fun sub => ⟨sub, countTokens sub, b.elementType, b.sectionHeading⟩)
  else [⟨b.text, b.tokenCount, b.elementType, b.sectionHeading⟩]

/-- Buffer-overflow flush before merging a non-atomic block
(ingestion.py lines 458-460). -/
def overflowFlush (st : BufSt) (b : LogicalBlock) : List Chunk × BufSt :=
  if maxChunkTokens < st.tokens + b.tokenCount then
    (flushChunks st, { clearBuf st with heading := b.sectionHeading })
  else ([], st)

/-- Merge a non-atomic block into the buffer (ingestion.py lines
462-466). -/
def bufferAppend (st : BufSt) (b : LogicalBlock) : BufSt :=
  let newText := if st.text = [] then b.text else st.text ++ sepTokens ++ b.text
  { st with text := newText, tokens := countTokens newText,
            btype := b.elementType }

/-- One iteration of the `for block in blocks` loop of `chunk_elements`
(ingestion.py lines 420-466). Returns the chunks emitted during the
iteration and the updated buffer. -/
def stepBlock (st0 : BufSt) (b : LogicalBlock) : List Chunk × BufSt :=
  let r1 := sectionFlush st0 b
  let st2 := headingInit r1.2 b
  if b.isAtomic then
    (r1.1 ++ flushChunks st2 ++ atomicEmit b,
     { clearBuf st2 with heading := b.sectionHeading })
  else
    let r2 := overflowFlush st2 b
    (r1.1 ++ r2.1, bufferAppend r2.2 b)

/-- The block loop of `chunk_elements` followed by the final flush. -/
def processBlocks (st : BufSt) : List LogicalBlock → List Chunk
  | [] => flushChunks st
  | b :: bs =>
    let r := stepBlock st b
    r.1 ++ processBlocks r.2 bs

/-- `chunk_elements` (ingestion.py lines 375-471). -/
def chunkElements (els : List PElem) : List Chunk :=
  processBlocks initialBuf (createLogicalBlocks els)

/-! ## Hybrid retrieval pipeline (retrieval.py `RetrievalService`)

External collaborators (Qdrant, Redis, the embedding model, BM25Okapi and
the Cohere reranker) are modelled as an environment of per-call outcomes;
`Except Unit` marks calls whose exceptions the source lets propagate. -/

/-- One Qdrant search hit as the pipeline reads it. -/
structure QdrantHit where
  id : String
  score : ℚ
  payload : Payload
deriving DecidableEq, Repr

/-- `RetrievalResult` dataclass (retrieval.py lines 55-63). -/
structure RetrievalResult where
  chunkId : String
  text : String
  payload : Payload
  denseScore : ℚ
  sparseScore : ℚ
deriving DecidableEq, Repr

/-- `_BM25CacheEntry` (retrieval.py lines 88-95); the opaque BM25Okapi
index is represented by its corpus size together with the scores it
yields for the current query. -/
structure BM25Cache where
  corpusSize : Nat
  chunkIds : List String
  chunkTexts : List String
  payloads : List Payload
  scores : List ℚ
deriving DecidableEq, Repr

/-- Outcomes of the external calls one `retrieve()` invocation makes.
`cacheGet` is the `redis.get` of the cache key itself: the call is made
outside any try block (retrieval.py line 388, re-raised by
`RedisClient.get`), so its failure is an outer `.error ()`; on success,
`none` is a cache miss, `some (.error ())` a hit whose pickle fails to
deserialize, `some (.ok c)` a good hit. `rebuildScores` are the BM25
scores of the query against a freshly rebuilt index. -/
structure RetrievalEnv where
  createCollection : Except Unit Unit
  pointCount : Except Unit Nat
  embed : Except Unit (List ℚ)
  searchRaw : Except Unit (List QdrantHit)
  searchSummary : Except Unit (List QdrantHit)
  searchHyp : Except Unit (List QdrantHit)
  cacheGet : Except Unit (Option (Except Unit BM25Cache))
  scrollAll : Except Unit (List QdrantHit)
  rebuildScores : List ℚ
  rerank : Except Unit (List (Nat × ℚ))

/-- Python-dict style best-score dedupe used by `_dense_retrieval`
(lines 307-323): first insertion fixes position, a better score replaces
the stored record in place. -/
def upsertBest (acc : List RetrievalResult) (h : QdrantHit) :
    List RetrievalResult :=
  let cid := h.payload.chunkId.getD h.id
  let fresh : RetrievalResult :=
    ⟨cid, h.payload.chunkText.getD "", h.payload, h.score, 0⟩
  if acc.any (fun r => r.chunkId == cid) then
    acc.map (fun r =>
      if r.chunkId == cid && decide (r.denseScore < h.score) then fresh else r)
  else acc ++ [fresh]

/-- Stable insertion into a descending-sorted list (ties keep earlier
elements first), modelling Python `sorted(..., reverse=True)`. -/
def insDescBy (key : α → ℚ) (x : α) : List α → List α
  | [] => [x]
  | y :: ys => if key x ≤ key y then y :: insDescBy key x ys else x :: y :: ys

def sortDescBy (key : α → ℚ) (l : List α) : List α :=
  l.foldl (fun acc x => insDescBy key x acc) []

/-- `_dense_retrieval` (retrieval.py lines 284-337): embed the query,
run the three per-vector-type searches (any failure propagates through
`asyncio.gather`), dedupe by chunk id keeping the best score, sort by
dense score descending. -/
def denseRetrieval (env : RetrievalEnv) : Except Unit (List RetrievalResult) := do
  let _ ← env.embed
  let raw ← env.searchRaw
  let summ ← env.searchSummary
  let hyp ← env.searchHyp
  let best := (raw ++ summ ++ hyp).foldl upsertBest []
  pure (sortDescBy (fun r => r.denseScore) best)

/-- Corpus rows built from scrolled raw points, dropping empty texts
(retrieval.py lines 419-427). -/
def buildCorpus (points : List QdrantHit) : List (String × String × Payload) :=
  points.filterMap (fun p =>
    let text := p.payload.chunkText.getD ""
    if text = "" then none
    else some (p.payload.chunkId.getD p.id, text, p.payload))

/-- `_get_or_build_bm25` (retrieval.py lines 377-454): the cache GET
itself is awaited outside any try block, so its failure propagates; a
deserialization failure is treated as a miss; the rebuild scrolls Qdrant
(errors propagate) and returns `none` for an empty corpus. The cache
write-back failure is swallowed and needs no modelling. -/
def getOrBuildBM25 (env : RetrievalEnv) : Except Unit (Option BM25Cache) := do
  let cached ← env.cacheGet
  match cached with
  | some (Except.ok c) => pure (some c)
  | _ => do
    let points ← env.scrollAll
    if points.isEmpty then pure none
    else
      let corpus := buildCorpus points
      if corpus.isEmpty then pure none
      else
        pure (some
          { corpusSize := corpus.length
            chunkIds := corpus.map (·.1)
            chunkTexts := corpus.map (·.2.1)
            payloads := corpus.map (·.2.2)
            scores := env.rebuildScores })

def emptyPayload : Payload := ⟨none, none⟩

/-- `_sparse_retrieval` (retrieval.py lines 341-375): top 20 BM25 scores,
keeping only strictly positive ones. -/
def sparseRetrieval (env : RetrievalEnv) : Except Unit (List RetrievalResult) := do
  let centry ← getOrBuildBM25 env
  match centry with
  | none => pure []
  | some c =>
    if c.corpusSize = 0 then pure []
    else
      let indexed := (sortDescBy (fun p => p.2) c.scores.enum).take 20
      pure (indexed.filterMap (fun p =>
        if p.2 ≤ 0 then none
        else some ⟨c.chunkIds.getD p.1 "", c.chunkTexts.getD p.1 "",
                   c.payloads.getD p.1 emptyPayload, 0, p.2⟩))

/-- `rrf_scores[cid] = rrf_scores.get(cid, 0.0) + v` over an
insertion-ordered association list. -/
def alBump (al : List (String × ℚ)) (k : String) (v : ℚ) :
    List (String × ℚ) :=
  if al.any (fun p => p.1 == k) then
    al.map (fun p => if p.1 == k then (p.1, p.2 + v) else p)
  else al ++ [(k, v)]

/-- `result_map` setdefault for dense entries. -/
def rmSetdefault (rm : List (String × RetrievalResult)) (k : String)
    (r : RetrievalResult) : List (String × RetrievalResult) :=
  if rm.any (fun p => p.1 == k) then rm else rm ++ [(k, r)]

def payloadIsEmpty (p : Payload) : Bool := p.chunkId.isNone && p.chunkText.isNone

/-- Sparse pass over `result_map` (retrieval.py lines 482-497): a new
chunk is appended, an existing one gets the sparse score merged in,
keeping the fuller text/payload (Python `or` on falsy values). -/
def rmMergeSparse (rm : List (String × RetrievalResult)) (k : String)
    (r : RetrievalResult) : List (String × RetrievalResult) :=
  if rm.any (fun p => p.1 == k) then
    rm.map (fun p =>
      if p.1 == k then
        (p.1, { chunkId := k
                text := if p.2.text = "" then r.text else p.2.text
                payload := if payloadIsEmpty p.2.payload then r.payload
                           else p.2.payload
                denseScore := p.2.denseScore
                sparseScore := r.sparseScore })
      else p)
  else rm ++ [(k, r)]

/-- `_reciprocal_rank_fusion` (retrieval.py lines 458-514), k = 60,
top 40 by RRF score. -/
def rrfFuse (dense sparse : List RetrievalResult) : List RetrievalResult :=
  let step1 := dense.enum.foldl
    (fun (acc : List (String × ℚ) × List (String × RetrievalResult)) p =>
      (alBump acc.1 p.2.chunkId (1 / (60 + ((p.1 : ℚ) + 1))),
       rmSetdefault acc.2 p.2.chunkId p.2))
    ([], [])
  let step2 := sparse.enum.foldl
    (fun (acc : List (String × ℚ) × List (String × RetrievalResult)) p =>
      (alBump acc.1 p.2.chunkId (1 / (60 + ((p.1 : ℚ) + 1))),
       rmMergeSparse acc.2 p.2.chunkId p.2))
    step1
  let sortedIds := (sortDescBy (fun p => p.2) step2.1).map (·.1)
  (sortedIds.take 40).filterMap
    (fun cid => (step2.2.find? (fun p => p.1 == cid)).map (·.2))

/-- `_fallback_rank` (retrieval.py lines 569-586): first 8 candidates in
RRF order, dense score clamped to ≥ 0 as the relevance score. -/
def fallbackRank (candidates : List RetrievalResult) : List RankedResult :=
  (candidates.take 8).enum.map (fun p =>
    ⟨p.2.chunkId, p.2.text, p.2.payload, max p.2.denseScore 0, p.1 + 1⟩)

def defaultRetrievalResult : RetrievalResult := ⟨"", "", emptyPayload, 0, 0⟩

/-- `_rerank` (retrieval.py lines 518-567): the Cohere call returns
(index, relevance) pairs; any exception inside the guarded block —
including a bad index — falls back to `_fallback_rank`; never raises. -/
def rerankStep (env : RetrievalEnv) (candidates : List RetrievalResult) :
    List RankedResult :=
  if candidates.isEmpty then []
  else
    match env.rerank with
    | .error _ => fallbackRank candidates
    | .ok pairs =>
      if pairs.all (fun q => q.1 < candidates.length) then
        pairs.enum.map (fun p =>
          let c := candidates.getD p.2.1 defaultRetrievalResult
          (⟨c.chunkId, c.text, c.payload, p.2.2, p.1 + 1⟩ : RankedResult))
      else fallbackRank candidates

/-- The three tenant-config values `retrieve` reads. -/
structure RetrievalConfig where
  escalationThreshold : ℚ
  maxTurns : Nat
  turnCount : Nat

/-- `RetrievalService.retrieve` (retrieval.py lines 201-280): collection
check, empty-collection fast exit, parallel dense+sparse, RRF, rerank,
confidence, escalation decision. Errors of the collection check, point
count, embedding, searches and scroll are not caught by the source and
surface as `.error`. -/
def retrieve (env : RetrievalEnv) (cfg : RetrievalConfig) :
    Except Unit RetrievalOutput := do
  let _ ← env.createCollection
  let n ← env.pointCount
  if n = 0 then
    pure ⟨[], 0, false, none⟩
  else
    let dense ← denseRetrieval env
    let sparse ← sparseRetrieval env
    let merged := rrfFuse dense sparse
    let ranked := rerankStep env (merged.take 40)
    let conf := computeConfidence ranked
    let er := shouldEscalateFn conf cfg.turnCount cfg.maxTurns
      cfg.escalationThreshold
    pure ⟨ranked, conf, er.1, er.2⟩

/-! ## Theorems -/

/-- C1: for ranked results whose relevance scores lie in [0,1],
`compute_confidence` is 0 on the empty list, otherwise
`min(1, top·0.85 + (supporting/10)·0.15)` with `supporting` the number of
results scoring strictly above 0.4, and the result always lies in [0,1]. -/
theorem computeConfidence_bounds (rs : List RankedResult)
    (hb : ∀ r ∈ rs, 0 ≤ r.relevanceScore ∧ r.relevanceScore ≤ 1) :
    (0 ≤ computeConfidence rs ∧ computeConfidence rs ≤ 1) ∧
    (rs = [] → computeConfidence rs = 0) ∧
    (∀ top rest, rs = top :: rest →
      computeConfidence rs =
        min 1 (top.relevanceScore * 0.85 +
          ((rs.countP (fun r => decide ((0.4 : ℚ) < r.relevanceScore)) : ℚ) / 10)
            * 0.15)) := by
  cases rs with
  | nil =>
    refine ⟨⟨le_refl 0, by simp [computeConfidence]⟩, fun _ => rfl, ?_⟩
    intro top rest h
    exact absurd h (by simp)
  | cons top rest =>
    have h0 : 0 ≤ top.relevanceScore := (hb top (List.mem_cons_self _ _)).1
    have hnn : 0 ≤ top.relevanceScore * 0.85 +
        (((((top :: rest).countP
            (fun r => decide ((0.4 : ℚ) < r.relevanceScore))) : Nat) : ℚ) / 10)
          * 0.15 := by
      have h1 : (0 : ℚ) ≤ top.relevanceScore * 0.85 :=
        mul_nonneg h0 (by norm_num)
      have h2 : (0 : ℚ) ≤
          (((((top :: rest).countP
              (fun r => decide ((0.4 : ℚ) < r.relevanceScore))) : Nat) : ℚ) / 10)
            * 0.15 :=
        mul_nonneg (div_nonneg (Nat.cast_nonneg _) (by norm_num)) (by norm_num)
      linarith
    refine ⟨⟨?_, ?_⟩, ?_, ?_⟩
    · exact le_min (by norm_num) hnn
    · exact min_le_left _ _
    · intro h; exact absurd h (by simp)
    · intro t r h
      obtain ⟨rfl, rfl⟩ : top = t ∧ rest = r := by
        injection h with h1 h2; exact ⟨h1, h2⟩
      rfl

/-- Witness for C1 at a one-element result list with score 0.9. -/
theorem computeConfidence_bounds_witness :
    0 ≤ computeConfidence [⟨"c1", "t", ⟨none, none⟩, 0.9, 1⟩] ∧
    computeConfidence [⟨"c1", "t", ⟨none, none⟩, 0.9, 1⟩] ≤ 1 :=
  (computeConfidence_bounds [⟨"c1", "t", ⟨none, none⟩, 0.9, 1⟩]
    (by intro r hr; simp at hr; subst hr; constructor <;> norm_num)).1

/-- C7: `close_session` reads the three counters with missing keys as 0,
appends exactly one billing event with those totals, deletes the three
keys, and an all-missing read yields a zero-count event plus a warning
instead of an error. -/
theorem closeSession_flushes (st : SessState) (etype : String) :
    ((closeSessionRun etype st).1.inputKey = none ∧
     (closeSessionRun etype st).1.outputKey = none ∧
     (closeSessionRun etype st).1.countKey = none) ∧
    (closeSessionRun etype st).1.events =
      st.events ++
        [⟨etype, st.inputKey.getD 0, st.outputKey.getD 0, st.countKey.getD 0⟩] ∧
    (st.inputKey = none ∧ st.outputKey = none ∧ st.countKey = none →
      (closeSessionRun etype st).1.events = st.events ++ [⟨etype, 0, 0, 0⟩] ∧
      (closeSessionRun etype st).2 = true) := by
  refine ⟨⟨rfl, rfl, rfl⟩, rfl, ?_⟩
  rintro ⟨h1, h2, h3⟩
  simp [closeSessionRun, h1, h2, h3]

/-- Witness for C7 on a fresh session state with no billing keys. -/
theorem closeSession_flushes_witness :
    (closeSessionRun "timeout"
      ⟨.active, false, none, none, none, none, none, [], []⟩).1.events =
        [⟨"timeout", 0, 0, 0⟩] ∧
    (closeSessionRun "timeout"
      ⟨.active, false, none, none, none, none, none, [], []⟩).2 = true := by
  have h := (closeSession_flushes
    ⟨.active, false, none, none, none, none, none, [], []⟩ "timeout").2.2
    ⟨rfl, rfl, rfl⟩
  simpa using h

/-- C8: `escalate` performs load-transcript, session commit, conditional
webhook enqueue and memory clear in that strict order, enqueues exactly
when a webhook URL is configured, and its post-state (escalated, reason
set, ended, memory cleared) is untouched by any outcome of the detached
webhook task. -/
theorem escalate_ordered (st : SessState) (reason : String)
    (url : Option String) (outcomes : List Bool) :
    (escalateRun reason url st).2 =
      [EscStep.loadTranscript, EscStep.commitSessionUpdate] ++
      (if url.isSome then [EscStep.enqueueWebhook] else []) ++
      [EscStep.clearMemory] ∧
    (EscStep.enqueueWebhook ∈ (escalateRun reason url st).2 ↔ url ≠ none) ∧
    (escalateRun reason url st).1.status = .escalated ∧
    (escalateRun reason url st).1.escalationReason = some reason ∧
    (escalateRun reason url st).1.endedAt = true ∧
    (escalateRun reason url st).1.memoryKey = none ∧
    (webhookTask outcomes (escalateRun reason url st).1).status = .escalated ∧
    (webhookTask outcomes (escalateRun reason url st).1).memoryKey = none := by
  refine ⟨rfl, ?_, rfl, rfl, rfl, rfl, ?_, ?_⟩
  · cases url <;> simp [escalateRun]
  · unfold webhookTask; split <;> rfl
  · unfold webhookTask; split <;> rfl

/-- Witness for C8 on a fresh session with a configured webhook URL. -/
theorem escalate_ordered_witness :
    (escalateRun "low_retrieval_confidence" (some "hook")
      startSession).1.status = .escalated ∧
    (EscStep.enqueueWebhook ∈ (escalateRun "low_retrieval_confidence"
      (some "hook") startSession).2 ↔ (some "hook" : Option String) ≠ none) := by
  have h := escalate_ordered startSession "low_retrieval_confidence"
    (some "hook") [false, false, false]
  exact ⟨h.2.2.1, h.2.1⟩

/-- C9: a domain-query turn whose retrieval comes back empty falls back
silently to the conversational branch: retrieval is called exactly once,
the intent reported is conversational, and no escalation happens — even
when the retrieval output itself had `should_escalate` set. -/
theorem domainQuery_emptyResults_fallback (ro : RetrievalOutput)
    (convReply : Option String) (ragReply personaName : String)
    (h : ro.results = []) :
    (handleDomainQuery ro convReply ragReply personaName).1.intentType =
        AgentIntent.conversational ∧
    (handleDomainQuery ro convReply ragReply personaName).1.escalationRequired
        = false ∧
    (handleDomainQuery ro convReply ragReply personaName).2.count
        AgentCall.callRetrieval = 1 ∧
    AgentCall.callEscalate ∉
      (handleDomainQuery ro convReply ragReply personaName).2 := by
  cases convReply with
  | none =>
    refine ⟨?_, ?_, ?_, ?_⟩ <;>
      simp [handleDomainQuery, h, handleConversational]
  | some t =>
    by_cases ht : t = "" <;>
      refine ⟨?_, ?_, ?_, ?_⟩ <;>
        simp [handleDomainQuery, h, handleConversational, ht]

/-- Witness for C9: empty results with `should_escalate = true` still
produce a conversational, non-escalating turn. -/
theorem domainQuery_emptyResults_fallback_witness :
    (handleDomainQuery ⟨[], 0, true, some "low_retrieval_confidence"⟩
        none "" "Ava").1.intentType = AgentIntent.conversational ∧
    (handleDomainQuery ⟨[], 0, true, some "low_retrieval_confidence"⟩
        none "" "Ava").1.escalationRequired = false :=
  ⟨(domainQuery_emptyResults_fallback _ none "" "Ava" rfl).1,
   (domainQuery_emptyResults_fallback _ none "" "Ava" rfl).2.1⟩

/-- C5 (code bug exhibit): a turn that escalates leaves the session
escalated with one terminating billing event, yet a following
`POST /session/id/end` — which performs no status check — moves the
session back to resolved and inserts a second terminating event. -/
theorem escalatedSession_end_rebills :
    ∃ st1, chatTurn true "q" "r" 5 7 (some "hook") startSession = some st1 ∧
      st1.status = .escalated ∧
      st1.events.map (fun e => e.eventType) = ["escalated"] ∧
      (endSession st1).status = .resolved ∧
      (endSession st1).events.map (fun e => e.eventType) =
        ["escalated", "resolved"] := by
  refine ⟨_, rfl, ?_, ?_, ?_, ?_⟩ <;> rfl

/-- C6 (code bug exhibit): after 11 turns the Redis memory entry holds
22 role/content messages — the save path serializes the full
`chat_memory.messages` list, never applying the 10-turn window. -/
theorem memoryEntry_grows_past_window :
    ∃ st, runConvTurns (List.replicate 11 (0, 0)) startSession = some st ∧
      (st.memoryKey.getD []).length = 22 ∧
      20 < (st.memoryKey.getD []).length := by
  refine ⟨_, rfl, ?_, ?_⟩ <;> decide

/-- Invariant of a run of non-escalating turns: the session stays active,
no billing event is flushed, and the three counters accumulate the token
sums plus one message per turn. -/
theorem runConvTurns_ok (turns : List (Nat × Nat)) : ∀ st : SessState,
    st.status = .active →
    ∃ st', runConvTurns turns st = some st' ∧
      st'.status = .active ∧
      st'.events = st.events ∧
      st'.inputKey.getD 0 = st.inputKey.getD 0 + (turns.map Prod.fst).sum ∧
      st'.outputKey.getD 0 = st.outputKey.getD 0 + (turns.map Prod.snd).sum ∧
      st'.countKey.getD 0 = st.countKey.getD 0 + turns.length := by
  induction turns with
  | nil =>
    intro st h
    exact ⟨st, rfl, h, rfl, by simp, by simp, by simp⟩
  | cons p rest ih =>
    intro st h
    obtain ⟨i, o⟩ := p
    have hstep : chatTurn false "u" "a" i o none st =
        some (recordMessage i o
          { st with
            memoryKey := some (st.memoryKey.getD [] ++
              [⟨.user, "u"⟩, ⟨.assistant, "a"⟩])
            messages := st.messages ++ [⟨.user, "u"⟩, ⟨.assistant, "a"⟩] }) := by
      simp [chatTurn, h]
    obtain ⟨st', h1, h2, h3, h4, h5, h6⟩ := ih (recordMessage i o
      { st with
        memoryKey := some (st.memoryKey.getD [] ++
          [⟨.user, "u"⟩, ⟨.assistant, "a"⟩])
        messages := st.messages ++ [⟨.user, "u"⟩, ⟨.assistant, "a"⟩] }) h
    refine ⟨st', ?_, h2, h3, ?_, ?_, ?_⟩
    · simp only [runConvTurns, hstep, Option.bind_some]
      exact h1
    · simp only [h4, recordMessage]
      simp
      omega
    · simp only [h5, recordMessage]
      simp
      omega
    · simp only [h6, recordMessage]
      simp
      omega

/-- C10: session start itself records a zero-token message, so a session
with N chat turns closes with a single billing event whose message total
is N + 1 and whose token totals are the per-turn sums. -/
theorem billingEvent_counts_start_message (turns : List (Nat × Nat)) :
    ∃ stN, runConvTurns turns startSession = some stN ∧
      (endSession stN).events =
        [⟨"resolved", (turns.map Prod.fst).sum, (turns.map Prod.snd).sum,
          turns.length + 1⟩] := by
  obtain ⟨stN, h1, _, h3, h4, h5, h6⟩ := runConvTurns_ok turns startSession rfl
  refine ⟨stN, h1, ?_⟩
  have hev : (endSession stN).events = stN.events ++
      [⟨"resolved", stN.inputKey.getD 0, stN.outputKey.getD 0,
        stN.countKey.getD 0⟩] := by
    simp [endSession, closeSession, closeSessionRun]
  rw [hev, h3, h4, h5, h6]
  have hs1 : startSession.events = [] := rfl
  have hs2 : startSession.inputKey.getD 0 = 0 := rfl
  have hs3 : startSession.outputKey.getD 0 = 0 := rfl
  have hs4 : startSession.countKey.getD 0 = 1 := rfl
  rw [hs1, hs2, hs3, hs4]
  simp [Nat.add_comm]

/-! ### Chunker lemmas -/

theorem dropWhile_length_le (p : α → Bool) (l : List α) :
    (List.dropWhile p l).length ≤ l.length := by
  induction l with
  | nil => simp
  | cons a l ih =>
    rw [List.dropWhile_cons]
    split
    · exact Nat.le_succ_of_le ih
    · simp

theorem dropWhile_append_not (p : α → Bool) (l1 l2 : List α) (t : α)
    (h : p t = false) :
    List.dropWhile p (l1 ++ t :: l2) = List.dropWhile p l1 ++ t :: l2 := by
  induction l1 with
  | nil => simp [List.dropWhile_cons, h]
  | cons a l ih =>
    rw [List.cons_append, List.dropWhile_cons, List.dropWhile_cons]
    split
    · exact ih
    · rw [List.cons_append]

theorem clb_nil : createLogicalBlocks [] = [] := by
  rw [createLogicalBlocks.eq_def]

theorem clb_table (el : PElem) (rest : List PElem)
    (h : el.elementType = "Table") :
    createLogicalBlocks (el :: rest) =
      tableBlockOf el :: createLogicalBlocks rest := by
  rw [createLogicalBlocks.eq_def]
  simp [h]

theorem clb_title_nil (el : PElem) (h : el.elementType = "Title") :
    createLogicalBlocks [el] = [titleBlockOf el] := by
  rw [createLogicalBlocks.eq_def]
  simp [h]

theorem clb_title_title (el next : PElem) (rest2 : List PElem)
    (h1 : el.elementType = "Title") (h2 : next.elementType = "Title") :
    createLogicalBlocks (el :: next :: rest2) =
      titleBlockOf el :: createLogicalBlocks (next :: rest2) := by
  rw [createLogicalBlocks.eq_def]
  simp [h1, h2]

theorem clb_title_merge (el next : PElem) (rest2 : List PElem)
    (h1 : el.elementType = "Title") (h2 : next.elementType ≠ "Title") :
    createLogicalBlocks (el :: next :: rest2) =
      mergedBlockOf el next :: createLogicalBlocks rest2 := by
  rw [createLogicalBlocks.eq_def]
  simp [h1, h2]

theorem clb_listitem (el : PElem) (rest : List PElem)
    (h : el.elementType = "ListItem") :
    createLogicalBlocks (el :: rest) =
      listBlockOf el (rest.takeWhile isListItemElem) ::
        createLogicalBlocks (rest.dropWhile isListItemElem) := by
  rw [createLogicalBlocks.eq_def]
  simp [h]

theorem clb_plain (el : PElem) (rest : List PElem)
    (h1 : el.elementType ≠ "Table") (h2 : el.elementType ≠ "Title")
    (h3 : el.elementType ≠ "ListItem") :
    createLogicalBlocks (el :: rest) =
      plainBlockOf el :: createLogicalBlocks rest := by
  rw [createLogicalBlocks.eq_def]
  simp [h1, h2, h3]

/-- Every window produced by `_split_text_with_overlap` holds at most
`max` tokens. -/
theorem splitTextWithOverlap_le (t : List Tok) :
    ∀ c ∈ splitTextWithOverlap t, c.length ≤ maxChunkTokens := by
  have H : ∀ n, ∀ t : List Tok, t.length ≤ n →
      ∀ c ∈ splitTextWithOverlap t, c.length ≤ maxChunkTokens := by
    intro n
    induction n with
    | zero =>
      intro t hlen c hc
      have ht : t.length ≤ maxChunkTokens := by
        simp [maxChunkTokens]; omega
      rw [splitTextWithOverlap.eq_def, if_pos ht] at hc
      simp at hc
      subst hc
      exact ht
    | succ n ih =>
      intro t hlen c hc
      by_cases h : t.length ≤ maxChunkTokens
      · rw [splitTextWithOverlap.eq_def, if_pos h] at hc
        simp at hc
        subst hc
        exact h
      · rw [splitTextWithOverlap.eq_def, if_neg h] at hc
        rcases List.mem_cons.mp hc with rfl | hc'
        · simp [List.length_take]
        · refine ih (t.drop (maxChunkTokens - overlapTokens)) ?_ c hc'
          simp only [List.length_drop, maxChunkTokens, overlapTokens] at *
          omega
  exact H t.length t le_rfl

/-- Every chunk a buffer flush emits holds at most `max` tokens. -/
theorem flushChunks_le (st : BufSt) :
    ∀ c ∈ flushChunks st, c.tokenCount ≤ maxChunkTokens := by
  intro c hc
  unfold flushChunks at hc
  split at hc
  · simp at hc
  · split at hc
    · obtain ⟨sub, hsub, rfl⟩ := List.mem_map.mp hc
      exact splitTextWithOverlap_le _ _ hsub
    · simp at hc
      subst hc
      show st.tokens ≤ maxChunkTokens
      omega

theorem sectionFlush_le (st : BufSt) (b : LogicalBlock) :
    ∀ c ∈ (sectionFlush st b).1, c.tokenCount ≤ maxChunkTokens := by
  intro c hc
  unfold sectionFlush at hc
  split at hc
  · exact flushChunks_le _ _ hc
  · simp at hc

theorem overflowFlush_le (st : BufSt) (b : LogicalBlock) :
    ∀ c ∈ (overflowFlush st b).1, c.tokenCount ≤ maxChunkTokens := by
  intro c hc
  unfold overflowFlush at hc
  split at hc
  · exact flushChunks_le _ _ hc
  · simp at hc

theorem atomicEmit_le (b : LogicalBlock) :
    ∀ c ∈ atomicEmit b,
      c.elementType = "Table" ∨ c.tokenCount ≤ maxChunkTokens := by
  intro c hc
  unfold atomicEmit at hc
  split at hc
  · obtain ⟨sub, hsub, rfl⟩ := List.mem_map.mp hc
    exact Or.inr (splitTextWithOverlap_le _ _ hsub)
  · simp at hc
    subst hc
    rename_i hg
    by_cases hT : b.elementType = "Table"
    · exact Or.inl hT
    · right
      show b.tokenCount ≤ maxChunkTokens
      by_cases hlt : maxChunkTokens < b.tokenCount
      · exact absurd ⟨hlt, hT⟩ hg
      · omega

/-- Every chunk one loop iteration emits is a Table-typed chunk or holds
at most `max` tokens. -/
theorem stepBlock_le (st : BufSt) (b : LogicalBlock) :
    ∀ c ∈ (stepBlock st b).1,
      c.elementType = "Table" ∨ c.tokenCount ≤ maxChunkTokens := by
  intro c hc
  simp only [stepBlock] at hc
  split at hc
  · rcases List.mem_append.mp hc with h | h
    · rcases List.mem_append.mp h with h' | h'
      · exact Or.inr (sectionFlush_le _ _ _ h')
      · exact Or.inr (flushChunks_le _ _ h')
    · exact atomicEmit_le _ _ h
  · rcases List.mem_append.mp hc with h | h
    · exact Or.inr (sectionFlush_le _ _ _ h)
    · exact Or.inr (overflowFlush_le _ _ _ h)

theorem processBlocks_le (bs : List LogicalBlock) : ∀ st : BufSt,
    ∀ c ∈ processBlocks st bs,
      c.elementType = "Table" ∨ c.tokenCount ≤ maxChunkTokens := by
  induction bs with
  | nil =>
    intro st c hc
    simp only [processBlocks] at hc
    exact Or.inr (flushChunks_le st c hc)
  | cons b bs ih =>
    intro st c hc
    simp only [processBlocks] at hc
    rcases List.mem_append.mp hc with h | h
    · exact stepBlock_le st b c h
    · exact ih _ c h

/-- An atomic block within the size guard (or Table-typed) is emitted
whole as one chunk by the loop iteration that consumes it. -/
theorem stepBlock_atomic_emits (st : BufSt) (b : LogicalBlock)
    (hA : b.isAtomic = true)
    (hg : b.tokenCount ≤ maxChunkTokens ∨ b.elementType = "Table") :
    (⟨b.text, b.tokenCount, b.elementType, b.sectionHeading⟩ : Chunk) ∈
      (stepBlock st b).1 := by
  have hng : ¬ (maxChunkTokens < b.tokenCount ∧ b.elementType ≠ "Table") := by
    rcases hg with h | h
    · rintro ⟨h1, -⟩; omega
    · rintro ⟨-, h2⟩; exact h2 h
  have hmem : (⟨b.text, b.tokenCount, b.elementType, b.sectionHeading⟩ : Chunk)
      ∈ atomicEmit b := by
    unfold atomicEmit
    rw [if_neg hng]
    exact List.mem_singleton.mpr rfl
  simp only [stepBlock, hA, if_true]
  exact List.mem_append_right _ hmem

theorem processBlocks_atomic_whole (bs : List LogicalBlock) : ∀ st : BufSt,
    ∀ b ∈ bs, b.isAtomic = true →
    (b.tokenCount ≤ maxChunkTokens ∨ b.elementType = "Table") →
    ∃ c ∈ processBlocks st bs, c.text = b.text := by
  induction bs with
  | nil =>
    intro st b hb
    simp at hb
  | cons hd tl ih =>
    intro st b hb hA hg
    rcases List.mem_cons.mp hb with rfl | hb'
    · refine ⟨⟨b.text, b.tokenCount, b.elementType, b.sectionHeading⟩, ?_, rfl⟩
      simp only [processBlocks]
      exact List.mem_append_left _ (stepBlock_atomic_emits st b hA hg)
    · obtain ⟨c, hc, he⟩ := ih (stepBlock st hd).2 b hb' hA hg
      refine ⟨c, ?_, he⟩
      simp only [processBlocks]
      exact List.mem_append_right _ hc

/-- Every Table-typed logical block is atomic. -/
theorem clb_table_atomic (els : List PElem) :
    ∀ b ∈ createLogicalBlocks els, b.elementType = "Table" →
      b.isAtomic = true := by
  have H : ∀ n (els : List PElem), els.length ≤ n →
      ∀ b ∈ createLogicalBlocks els, b.elementType = "Table" →
        b.isAtomic = true := by
    intro n
    induction n with
    | zero =>
      intro els hlen b hb _
      have hnil : els = [] := List.length_eq_zero.mp (Nat.le_zero.mp hlen)
      subst hnil
      rw [clb_nil] at hb
      simp at hb
    | succ n ih =>
      intro els hlen b hb hT
      cases els with
      | nil =>
        rw [clb_nil] at hb
        simp at hb
      | cons el rest =>
        simp only [List.length_cons] at hlen
        by_cases h1 : el.elementType = "Table"
        · rw [clb_table el rest h1] at hb
          rcases List.mem_cons.mp hb with rfl | hb'
          · rfl
          · exact ih rest (by omega) b hb' hT
        · by_cases h2 : el.elementType = "Title"
          · cases rest with
            | nil =>
              rw [clb_title_nil el h2] at hb
              simp at hb
              subst hb
              rfl
            | cons next rest2 =>
              simp only [List.length_cons] at hlen
              by_cases h3 : next.elementType = "Title"
              · rw [clb_title_title el next rest2 h2 h3] at hb
                rcases List.mem_cons.mp hb with rfl | hb'
                · rfl
                · exact ih (next :: rest2) (by simp; omega) b hb' hT
              · rw [clb_title_merge el next rest2 h2 h3] at hb
                rcases List.mem_cons.mp hb with rfl | hb'
                · rfl
                · exact ih rest2 (by omega) b hb' hT
          · by_cases h3 : el.elementType = "ListItem"
            · rw [clb_listitem el rest h3] at hb
              rcases List.mem_cons.mp hb with rfl | hb'
              · rfl
              · exact ih (rest.dropWhile isListItemElem)
                  (le_trans (dropWhile_length_le _ _) (by omega)) b hb' hT
            · rw [clb_plain el rest h1 h2 h3] at hb
              rcases List.mem_cons.mp hb with rfl | hb'
              · exact absurd hT h1
              · exact ih rest (by omega) b hb' hT
  exact H els.length els le_rfl

/-- A Title immediately followed by a non-Title element always yields the
merged atomic block among the logical blocks, whatever surrounds it. -/
theorem merged_block_mem :
    ∀ (pre : List PElem) (t x : PElem) (post : List PElem),
      t.elementType = "Title" → x.elementType ≠ "Title" →
      mergedBlockOf t x ∈ createLogicalBlocks (pre ++ t :: x :: post) := by
  have H : ∀ n (pre : List PElem), pre.length ≤ n →
      ∀ (t x : PElem) (post : List PElem), t.elementType = "Title" →
      x.elementType ≠ "Title" →
      mergedBlockOf t x ∈ createLogicalBlocks (pre ++ t :: x :: post) := by
    intro n
    induction n with
    | zero =>
      intro pre hlen t x post ht hx
      have hnil : pre = [] := List.length_eq_zero.mp (Nat.le_zero.mp hlen)
      subst hnil
      rw [List.nil_append, clb_title_merge t x post ht hx]
      exact List.mem_cons_self _ _
    | succ n ih =>
      intro pre hlen t x post ht hx
      cases pre with
      | nil =>
        rw [List.nil_append, clb_title_merge t x post ht hx]
        exact List.mem_cons_self _ _
      | cons e pre2 =>
        simp only [List.length_cons] at hlen
        have hlen2 : pre2.length ≤ n := by omega
        by_cases h1 : e.elementType = "Table"
        · rw [List.cons_append, clb_table e _ h1]
          exact List.mem_cons_of_mem _ (ih pre2 hlen2 t x post ht hx)
        · by_cases h2 : e.elementType = "Title"
          · cases pre2 with
            | nil =>
              rw [List.cons_append, List.nil_append,
                clb_title_title e t (x :: post) h2 ht]
              refine List.mem_cons_of_mem _ ?_
              have h0 := ih [] (by omega) t x post ht hx
              simpa using h0
            | cons p pre3 =>
              simp only [List.length_cons] at hlen2
              by_cases h3 : p.elementType = "Title"
              · rw [List.cons_append, List.cons_append,
                  clb_title_title e p _ h2 h3]
                refine List.mem_cons_of_mem _ ?_
                have h0 := ih (p :: pre3) (by simp; omega) t x post ht hx
                simpa [List.cons_append] using h0
              · rw [List.cons_append, List.cons_append,
                  clb_title_merge e p _ h2 h3]
                exact List.mem_cons_of_mem _
                  (ih pre3 (by omega) t x post ht hx)
          · by_cases h3 : e.elementType = "ListItem"
            · rw [List.cons_append, clb_listitem e _ h3]
              refine List.mem_cons_of_mem _ ?_
              have hfalse : isListItemElem t = false := by
                simp [isListItemElem, ht]
              rw [dropWhile_append_not _ pre2 (x :: post) t hfalse]
              exact ih (pre2.dropWhile isListItemElem)
                (le_trans (dropWhile_length_le _ _) hlen2) t x post ht hx
            · rw [List.cons_append, clb_plain e _ h1 h2 h3]
              exact List.mem_cons_of_mem _ (ih pre2 hlen2 t x post ht hx)
  intro pre t x post ht hx
  exact H pre.length pre le_rfl t x post ht hx

/-- Chunking a Title followed by one non-Title element reduces to the
atomic emission of their merged block. -/
theorem chunkElements_pair_merged (t x : PElem)
    (ht : t.elementType = "Title") (hx : x.elementType ≠ "Title") :
    chunkElements [t, x] = atomicEmit (mergedBlockOf t x) := by
  unfold chunkElements
  rw [clb_title_merge t x [] ht hx, clb_nil]
  simp [processBlocks, stepBlock, sectionFlush, headingInit, initialBuf,
    clearBuf, flushChunks, mergedBlockOf]

theorem chunkElements_pair_merged_table (t x : PElem)
    (ht : t.elementType = "Title") (hx : x.elementType ≠ "Title")
    (hxt : x.elementType = "Table") :
    chunkElements [t, x] =
      [⟨t.text ++ sepTokens ++ x.text,
        countTokens (t.text ++ sepTokens ++ x.text), x.elementType,
        t.sectionHeading⟩] := by
  rw [chunkElements_pair_merged t x ht hx]
  unfold atomicEmit
  rw [if_neg]
  · rfl
  · rintro ⟨-, hne⟩
    exact hne hxt

theorem chunkElements_pair_merged_split (t x : PElem)
    (ht : t.elementType = "Title") (hx : x.elementType ≠ "Title")
    (hbig : maxChunkTokens < countTokens (t.text ++ sepTokens ++ x.text))
    (hxt : x.elementType ≠ "Table") :
    chunkElements [t, x] =
      (splitTextWithOverlap (t.text ++ sepTokens ++ x.text)).map
        (fun sub =>
          ⟨sub, countTokens sub, x.elementType, t.sectionHeading⟩) := by
  rw [chunkElements_pair_merged t x ht hx]
  unfold atomicEmit
  rw [if_pos ⟨hbig, hxt⟩]
  rfl

/-- Chunking a Title plus one non-Title element whose merged block is
within the hard max yields exactly the single merged chunk. -/
theorem chunkElements_pair_merged_small (t x : PElem)
    (ht : t.elementType = "Title") (hx : x.elementType ≠ "Title")
    (hsz : countTokens (t.text ++ sepTokens ++ x.text) ≤ maxChunkTokens) :
    chunkElements [t, x] =
      [⟨t.text ++ sepTokens ++ x.text,
        countTokens (t.text ++ sepTokens ++ x.text), x.elementType,
        t.sectionHeading⟩] := by
  rw [chunkElements_pair_merged t x ht hx]
  unfold atomicEmit
  rw [if_neg]
  · rfl
  · rintro ⟨hlt, -⟩
    have : countTokens (t.text ++ sepTokens ++ x.text) ≤ maxChunkTokens := hsz
    have hlt2 : maxChunkTokens < countTokens (t.text ++ sepTokens ++ x.text) :=
      hlt
    omega

/-- C3 (amended): every chunk whose element type is not Table holds at
most 550 tokens, and every Table-typed block — a Table element, possibly
merged with its preceding Title — is emitted whole in a single chunk,
however large. -/
theorem chunkElements_token_bound (els : List PElem) :
    (∀ c ∈ chunkElements els, c.elementType ≠ "Table" → c.tokenCount ≤ 550) ∧
    (∀ b ∈ createLogicalBlocks els, b.elementType = "Table" →
      ∃ c ∈ chunkElements els, c.text = b.text) := by
  constructor
  · intro c hc hT
    rcases processBlocks_le _ initialBuf c hc with h | h
    · exact absurd h hT
    · simp only [maxChunkTokens] at h
      omega
  · intro b hb hT
    exact processBlocks_atomic_whole _ initialBuf b hb
      (clb_table_atomic els b hb hT) (Or.inr hT)

/-- Witness for C3 at a two-element Title + small-paragraph input. -/
theorem chunkElements_token_bound_witness :
    (⟨[1] ++ sepTokens ++ [2], countTokens ([1] ++ sepTokens ++ [2]),
      "NarrativeText", some "H"⟩ : Chunk).tokenCount ≤ 550 := by
  refine (chunkElements_token_bound
    [⟨[1], "Title", some "H"⟩, ⟨[2], "NarrativeText", some "H"⟩]).1
    _ ?_ (by decide)
  rw [chunkElements_pair_merged_small _ _ rfl (by decide) (by decide)]
  exact List.mem_singleton.mpr rfl

/-- C3 counterexample: a Title merged with an oversized Table yields one
chunk of 551 tokens whose text is not the text of any single Table
element of the input, falsifying the claim as stated. -/
theorem chunk_over_550_not_single_table :
    ∃ c ∈ chunkElements
        [⟨[9], "Title", some "S"⟩, ⟨List.replicate 549 7, "Table", some "S"⟩],
      550 < c.tokenCount ∧
      ∀ el ∈ ([⟨[9], "Title", some "S"⟩,
               ⟨List.replicate 549 7, "Table", some "S"⟩] : List PElem),
        ¬(el.elementType = "Table" ∧ c.text = el.text) := by
  rw [chunkElements_pair_merged_table _ _ rfl (by decide) rfl]
  refine ⟨_, List.mem_singleton.mpr rfl, ?_, ?_⟩
  · show 550 < countTokens ([9] ++ sepTokens ++ List.replicate 549 7)
    simp only [countTokens, sepTokens, List.length_append,
      List.length_replicate, List.length_cons, List.length_nil]
    norm_num
  · intro el hel
    rintro ⟨hT, htext⟩
    rcases List.mem_cons.mp hel with rfl | hel'
    · exact absurd hT (by decide)
    · rcases List.mem_cons.mp hel' with rfl | hel''
      · have hlen := congrArg List.length htext
        simp only [List.length_append, List.length_replicate,
          List.length_cons, List.length_nil, sepTokens] at hlen
        omega
      · exact absurd hel'' (List.not_mem_nil _)

/-- C4 (amended): a Title immediately followed by a non-Title element
lands with that element in one single chunk whenever their merged block
is within the 500-token hard max; oversized merged blocks are
window-split by design. -/
theorem titleMerge_one_chunk (pre post : List PElem) (t x : PElem)
    (ht : t.elementType = "Title") (hx : x.elementType ≠ "Title")
    (hsz : countTokens (t.text ++ sepTokens ++ x.text) ≤ maxChunkTokens) :
    ∃ c ∈ chunkElements (pre ++ t :: x :: post),
      t.text <:+: c.text ∧ x.text <:+: c.text := by
  have hb := merged_block_mem pre t x post ht hx
  obtain ⟨c, hc, he⟩ := processBlocks_atomic_whole _ initialBuf _ hb rfl
    (Or.inl hsz)
  refine ⟨c, hc, ?_, ?_⟩
  · rw [he]
    exact ⟨[], sepTokens ++ x.text, by simp [mergedBlockOf]⟩
  · rw [he]
    exact ⟨t.text ++ sepTokens, [], by simp [mergedBlockOf]⟩

/-- Witness for C4 at a two-element Title + paragraph input. -/
theorem titleMerge_one_chunk_witness :
    ∃ c ∈ chunkElements
        [⟨[1], "Title", some "H"⟩, ⟨[2], "NarrativeText", some "H"⟩],
      ([1] : List Tok) <:+: c.text ∧ ([2] : List Tok) <:+: c.text := by
  have h := titleMerge_one_chunk [] [] ⟨[1], "Title", some "H"⟩
    ⟨[2], "NarrativeText", some "H"⟩ rfl (by decide) (by decide)
  simpa using h

/-- C4 counterexample: a Title followed by a 501-token paragraph is
window-split, so no single chunk contains both texts. -/
theorem titleMerge_counterexample :
    ¬ ∃ c ∈ chunkElements
        [⟨[1], "Title", some "H"⟩,
         ⟨List.replicate 501 0, "NarrativeText", some "H"⟩],
      ([1] : List Tok) <:+: c.text ∧
      (List.replicate 501 (0 : Tok)) <:+: c.text := by
  rw [chunkElements_pair_merged_split _ _ rfl (by decide)
    (by simp only [countTokens, sepTokens, maxChunkTokens,
          List.length_append, List.length_replicate, List.length_cons,
          List.length_nil]
        norm_num)
    (by decide)]
  rintro ⟨c, hc, -, h2⟩
  obtain ⟨sub, hsub, rfl⟩ := List.mem_map.mp hc
  have h1 := splitTextWithOverlap_le _ _ hsub
  simp only [maxChunkTokens] at h1
  have h3 := h2.length_le
  rw [List.length_replicate] at h3
  have h4 : (501 : Nat) ≤ sub.length := h3
  omega

/-! ### Retrieval error-handling lemmas -/

/-- C2 counterexample: with one point in the collection, a failing
query-embedding call — and likewise a failing Redis GET of the BM25
cache key, awaited outside any try block — surfaces out of `retrieve`
instead of producing a degraded `RetrievalOutput`. -/
theorem retrieve_raises_on_uncaught_errors :
    retrieve
      { createCollection := .ok ()
        pointCount := .ok 1
        embed := .error ()
        searchRaw := .ok []
        searchSummary := .ok []
        searchHyp := .ok []
        cacheGet := .ok none
        scrollAll := .ok []
        rebuildScores := []
        rerank := .ok [] }
      ⟨0.55, 10, 0⟩ = .error () ∧
    retrieve
      { createCollection := .ok ()
        pointCount := .ok 1
        embed := .ok []
        searchRaw := .ok []
        searchSummary := .ok []
        searchHyp := .ok []
        cacheGet := .error ()
        scrollAll := .ok []
        rebuildScores := []
        rerank := .ok [] }
      ⟨0.55, 10, 0⟩ = .error () := ⟨rfl, rfl⟩

theorem except_bind_ok (a : α) (f : α → Except ε β) :
    (Except.ok a >>= f) = f a := rfl

/-- The BM25 cache lookup-or-rebuild never fails once the cache GET and
the Qdrant scroll succeed, whatever the GET returned. -/
theorem getOrBuildBM25_total (env : RetrievalEnv)
    (co : Option (Except Unit BM25Cache)) (pts : List QdrantHit)
    (hcg : env.cacheGet = .ok co)
    (hscroll : env.scrollAll = .ok pts) :
    ∃ oc, getOrBuildBM25 env = .ok oc := by
  unfold getOrBuildBM25
  rw [hcg, except_bind_ok]
  rcases co with - | ce
  · rw [hscroll, except_bind_ok]
    by_cases hp : pts.isEmpty = true
    · rw [if_pos hp]
      exact ⟨_, rfl⟩
    · rw [if_neg hp]
      dsimp only
      by_cases hb : (buildCorpus pts).isEmpty = true
      · rw [if_pos hb]
        exact ⟨_, rfl⟩
      · rw [if_neg hb]
        exact ⟨_, rfl⟩
  · rcases ce with - | c
    · rw [hscroll, except_bind_ok]
      by_cases hp : pts.isEmpty = true
      · rw [if_pos hp]
        exact ⟨_, rfl⟩
      · rw [if_neg hp]
        dsimp only
        by_cases hb : (buildCorpus pts).isEmpty = true
        · rw [if_pos hb]
          exact ⟨_, rfl⟩
        · rw [if_neg hb]
          exact ⟨_, rfl⟩
    · exact ⟨_, rfl⟩

/-- Sparse retrieval never fails once the cache GET and the scroll
succeed. -/
theorem sparseRetrieval_total (env : RetrievalEnv)
    (co : Option (Except Unit BM25Cache)) (pts : List QdrantHit)
    (hcg : env.cacheGet = .ok co)
    (hscroll : env.scrollAll = .ok pts) :
    ∃ sp, sparseRetrieval env = .ok sp := by
  obtain ⟨oc, hoc⟩ := getOrBuildBM25_total env co pts hcg hscroll
  unfold sparseRetrieval
  rw [hoc]
  cases oc with
  | none => exact ⟨[], rfl⟩
  | some c =>
    show ∃ sp, (if c.corpusSize = 0 then _ else _) = Except.ok sp
    split
    · exact ⟨_, rfl⟩
    · exact ⟨_, rfl⟩

/-- C2 (amended): when the collection check, point count, query
embedding, the three dense searches, the Redis GET of the cache key and
the corpus scroll succeed, `retrieve` returns a `RetrievalOutput` for
every cache-content and rerank outcome: an empty collection fast-exits
with confidence 0 and no escalation, a rerank failure falls back to the
first 8 RRF candidates with the dense score clamped to ≥ 0, and a cache
entry that fails to deserialize is treated as a miss (empty corpus →
empty sparse list). Errors of the seven calls above, however,
propagate. -/
theorem retrieve_degrades (env : RetrievalEnv) (cfg : RetrievalConfig)
    (n : Nat) (v : List ℚ) (lr ls lh pts : List QdrantHit)
    (co : Option (Except Unit BM25Cache))
    (hcc : env.createCollection = .ok ())
    (hpc : env.pointCount = .ok n)
    (hemb : env.embed = .ok v)
    (hsr : env.searchRaw = .ok lr)
    (hss : env.searchSummary = .ok ls)
    (hsh : env.searchHyp = .ok lh)
    (hcget : env.cacheGet = .ok co)
    (hscroll : env.scrollAll = .ok pts) :
    (n = 0 → retrieve env cfg = .ok ⟨[], 0, false, none⟩) ∧
    (∃ dense, denseRetrieval env = .ok dense) ∧
    (∃ sparse, sparseRetrieval env = .ok sparse) ∧
    (∀ dense sparse, denseRetrieval env = .ok dense →
      sparseRetrieval env = .ok sparse → n ≠ 0 →
      retrieve env cfg = .ok
        ⟨rerankStep env ((rrfFuse dense sparse).take 40),
         computeConfidence (rerankStep env ((rrfFuse dense sparse).take 40)),
         (shouldEscalateFn
            (computeConfidence
              (rerankStep env ((rrfFuse dense sparse).take 40)))
            cfg.turnCount cfg.maxTurns cfg.escalationThreshold).1,
         (shouldEscalateFn
            (computeConfidence
              (rerankStep env ((rrfFuse dense sparse).take 40)))
            cfg.turnCount cfg.maxTurns cfg.escalationThreshold).2⟩) ∧
    (env.rerank = .error () → ∀ cands, cands ≠ [] →
      rerankStep env cands = fallbackRank cands) ∧
    (co = some (.error ()) → pts = [] →
      sparseRetrieval env = .ok []) := by
  refine ⟨?_, ?_, ?_, ?_, ?_, ?_⟩
  · intro hn
    subst hn
    unfold retrieve
    rw [hcc, except_bind_ok, hpc, except_bind_ok]
    rfl
  · refine ⟨sortDescBy (fun r => r.denseScore)
      ((lr ++ ls ++ lh).foldl upsertBest []), ?_⟩
    unfold denseRetrieval
    rw [hemb, except_bind_ok, hsr, except_bind_ok, hss, except_bind_ok,
      hsh, except_bind_ok]
    rfl
  · exact sparseRetrieval_total env co pts hcget hscroll
  · intro dense sparse hd hs hn
    unfold retrieve
    rw [hcc, except_bind_ok, hpc, except_bind_ok, if_neg hn, hd,
      except_bind_ok, hs, except_bind_ok]
    rfl
  · intro hrr cands hne
    unfold rerankStep
    rw [if_neg, hrr]
    simp [List.isEmpty_iff, hne]
  · intro hco hpts
    subst hco
    subst hpts
    unfold sparseRetrieval getOrBuildBM25
    rw [hcget, except_bind_ok, hscroll]
    rfl

/-- Witness for C2 at an all-healthy environment with an empty
collection: the fast exit returns the degraded empty output. -/
theorem retrieve_degrades_witness :
    retrieve
      { createCollection := .ok ()
        pointCount := .ok 0
        embed := .ok []
        searchRaw := .ok []
        searchSummary := .ok []
        searchHyp := .ok []
        cacheGet := .ok none
        scrollAll := .ok []
        rebuildScores := []
        rerank := .error () }
      ⟨0.55, 10, 0⟩ = .ok ⟨[], 0, false, none⟩ :=
  (retrieve_degrades _ ⟨0.55, 10, 0⟩ 0 [] [] [] [] [] none
    rfl rfl rfl rfl rfl rfl rfl rfl).1 rfl

end Artrix
